import Mathlib

/-!
Shallow embedding of `HealthDataExtractor.py` (Apple Health export extractor).

Strings are modelled as `List Char` (`String.data` of Lean literals is used for
constants).  Python dictionaries (`ElementTree` attribute maps, the `FIELDS`
table, the open file handles) are modelled as association lists that keep
insertion order, matching CPython dict semantics.  `collections.Counter` is
modelled the same way, a key paired with its count, in first-insertion order.
Code that can raise a Python exception is modelled in `Except (List Char)`,
the error text recording the exception that the interpreter would raise.
-/

/-- One parsed XML node: its tag and its attribute map (`node.attrib`),
in document order. -/
structure Node where
  tag : List Char
  attrib : List (List Char × List Char)
deriving DecidableEq, Repr

/-- Model of `collections.Counter` restricted to what the program uses:
an association list from key to count, in first-insertion order. -/
abbrev CounterT := List (List Char × Nat)

/-- Association-list lookup: Python `d[k]` / `d.get(k)` (keys are unique in a
Python dict, so first match is the match). -/
def dictGet {β : Type} (d : List (List Char × β)) (k : List Char) : Option β :=
  match d with
  | [] => none
  | (k2, v) :: rest => if k2 = k then some v else dictGet rest k

/-- Python dict assignment `d[k] = v`: update in place when the key exists
(order preserved), append otherwise. -/
def dictSet {β : Type} (d : List (List Char × β)) (k : List Char) (v : β) :
    List (List Char × β) :=
  if (dictGet d k).isSome then
    d.map (fun p => if p.1 = k then (p.1, v) else p)
  else
    d ++ [(k, v)]

/-- `Counter` increment `c[k] += 1` (a missing key counts as 0, so the first
increment inserts the key with count 1 at the end). -/
def counterAdd (c : CounterT) (k : List Char) : CounterT :=
  if (dictGet c k).isSome then
    c.map (fun p => if p.1 = k then (p.1, p.2 + 1) else p)
  else
    c ++ [(k, 1)]

/-- Whether an `Except` computation ended in a raised exception. -/
def isErr {ε α : Type} : Except ε α → Bool
  | .error _ => true
  | .ok _ => false

/-! ## Schema registry (source lines 22-65) -/

/-- `RECORD_FIELDS`: ordered (field name, datatype code) pairs. -/
def RECORD_FIELDS : List (List Char × Char) :=
  [("sourceName".data, 's'),
   ("sourceVersion".data, 's'),
   ("device".data, 's'),
   ("type".data, 's'),
   ("unit".data, 's'),
   ("creationDate".data, 'd'),
   ("startDate".data, 'd'),
   ("endDate".data, 'd'),
   ("value".data, 'n')]

/-- `ACTIVITY_SUMMARY_FIELDS`. -/
def ACTIVITY_SUMMARY_FIELDS : List (List Char × Char) :=
  [("dateComponents".data, 'd'),
   ("activeEnergyBurned".data, 'n'),
   ("activeEnergyBurnedGoal".data, 'n'),
   ("activeEnergyBurnedUnit".data, 's'),
   ("appleExerciseTime".data, 's'),
   ("appleExerciseTimeGoal".data, 's'),
   ("appleStandHours".data, 'n'),
   ("appleStandHoursGoal".data, 'n')]

/-- `WORKOUT_FIELDS`. -/
def WORKOUT_FIELDS : List (List Char × Char) :=
  [("sourceName".data, 's'),
   ("sourceVersion".data, 's'),
   ("device".data, 's'),
   ("creationDate".data, 'd'),
   ("startDate".data, 'd'),
   ("endDate".data, 'd'),
   ("workoutActivityType".data, 's'),
   ("duration".data, 'n'),
   ("durationUnit".data, 's'),
   ("totalDistance".data, 'n'),
   ("totalDistanceUnit".data, 's'),
   ("totalEnergyBurned".data, 'n'),
   ("totalEnergyBurnedUnit".data, 's')]

/-- `FIELDS`: tag name to schema, in declaration order. -/
def FIELDS : List (List Char × List (List Char × Char)) :=
  [("Record".data, RECORD_FIELDS),
   ("ActivitySummary".data, ACTIVITY_SUMMARY_FIELDS),
   ("Workout".data, WORKOUT_FIELDS)]

/-! ## Value formatter (source lines 67-85) -/

/-- Python `s.replace(old, new)` for a single-character pattern: every
occurrence of `old` is replaced by `new`. -/
def pyReplace (s : List Char) (old : Char) (new : List Char) : List Char :=
  match s with
  | [] => []
  | c :: rest => (if c = old then new else [c]) ++ pyReplace rest old new

/-- The escaping that `format_value` applies to a string value:
`value.replace(backslash, two backslashes).replace(quote, backslash quote)`. -/
def escapedBody (v : List Char) : List Char :=
  pyReplace (pyReplace v '\\' ['\\', '\\']) '"' ['\\', '"']

/-- `format_value(value, datatype)`: `None` maps to the empty string before
the datatype is inspected; `s` wraps the escaped value in double quotes;
`n` and `d` pass the value through; any other datatype raises `KeyError`. -/
def format_value (value : Option (List Char)) (datatype : Char) :
    Except (List Char) (List Char) :=
  match value with
  | none => .ok []
  | some v =>
    if datatype = 's' then
      .ok ('"' :: escapedBody v ++ ['"'])
    else if datatype = 'n' ∨ datatype = 'd' then
      .ok v
    else
      .error ("Unexpected format value: ".data ++ [datatype])

/-! ## Type-name normalizer (source lines 19 and 87-95)

`PREFIX_RE = re.compile(r) ` with `r` the pattern `HK`, then `.*`, then
`TypeIdentifier`, then a captured `.+`, anchored at both ends.  Python regex
semantics modelled: `.` matches any character except a newline; the final
anchor matches at the end of the string or just before one trailing newline;
`.*` is greedy, so the capture starts after the last occurrence of the marker
that still leaves a non-empty capture. -/

/-- The two literal characters the pattern requires at the start. -/
def hkLit : List Char := ['H', 'K']

/-- The literal marker token of `PREFIX_RE`. -/
def marker : List Char := "TypeIdentifier".data

/-- Match the tail pattern (captured `.+` then the end anchor) against the
text after the marker; returns the captured group. -/
def matchRest (rest : List Char) : Option (List Char) :=
  if rest ≠ [] ∧ rest.all (fun c => c ≠ '\n') then
    some rest
  else if rest.getLast? = some '\n' ∧ rest.dropLast ≠ [] ∧
      rest.dropLast.all (fun c => c ≠ '\n') then
    some rest.dropLast
  else
    none

/-- Try to place the marker at offset `i` of the text following `HK`:
the skipped part must be newline-free (it is matched by `.*`), the marker
must occur at `i`, and the tail pattern must match what follows. -/
def matchAt (body : List Char) (i : Nat) : Option (List Char) :=
  if (body.take i).all (fun c => c ≠ '\n') ∧
      (body.drop i).take marker.length = marker then
    matchRest (body.drop (i + marker.length))
  else
    none

/-- Greedy search: try the largest marker offset first (the behaviour of a
greedy `.*` with backtracking). -/
def findFrom (body : List Char) : Nat → Option (List Char)
  | 0 => matchAt body 0
  | i + 1 =>
    match matchAt body (i + 1) with
    | some r => some r
    | none => findFrom body i

/-- `re.match(PREFIX_RE, s)`, returning `group(1)` on success. -/
def prefixReMatch (s : List Char) : Option (List Char) :=
  if s.take 2 = hkLit then
    findFrom (s.drop 2) (s.drop 2).length
  else
    none

/-- `shorten_type_name(name)` (source lines 87-95): `m = re.match(PREFIX_RE,
name); return m.group(1)`.  When the pattern does not match, `m` is `None`
and the attribute access raises. -/
def shorten_type_name (name : List Char) : Except (List Char) (List Char) :=
  match prefixReMatch name with
  | some r => .ok r
  | none => .error "AttributeError: NoneType object has no attribute group".data

/-! ## Constructor-time passes (source lines 108-176) -/

/-- One iteration of the `shorten_type_names` loop (source lines 133-136):
a `Record` node that has a `type` attribute gets that attribute rewritten
through `shorten_type_name`; every other node is left untouched. -/
def shortenNodeStep (node : Node) : Except (List Char) Node :=
  if node.tag = "Record".data then
    match dictGet node.attrib "type".data with
    | some t => do
      let t2 ← shorten_type_name t
      pure { node with attrib := dictSet node.attrib "type".data t2 }
    | none => pure node
  else
    pure node

/-- `shorten_type_names` (source lines 128-136): for every `Record` node that
has a `type` attribute, rewrite that attribute through `shorten_type_name`.
A raised exception propagates. -/
def shorten_type_names (nodes : List Node) : Except (List Char) (List Node) :=
  match nodes with
  | [] => .ok []
  | node :: rest => do
    let node2 ← shortenNodeStep node
    let rest2 ← shorten_type_names rest
    .ok (node2 :: rest2)

/-- Loop body of `count_record_types` (source lines 138-167), threading the
two counters and the list of lines printed for unknown tags.  A `Record`
node is counted under `record.attrib[type]`, which raises `KeyError` when
the attribute is absent. -/
def countRecordsGo (nodes : List Node) (record_types other_types : CounterT)
    (printed : List (List Char)) :
    Except (List Char) (CounterT × CounterT × List (List Char)) :=
  match nodes with
  | [] => .ok (record_types, other_types, printed)
  | record :: rest =>
    if record.tag = "Record".data then
      match dictGet record.attrib "type".data with
      | some t => countRecordsGo rest (counterAdd record_types t) other_types printed
      | none => .error "KeyError: type".data
    else if record.tag = "ActivitySummary".data ∨ record.tag = "Workout".data then
      countRecordsGo rest record_types (counterAdd other_types record.tag) printed
    else if record.tag = "Export".data ∨ record.tag = "Me".data then
      countRecordsGo rest record_types other_types printed
    else
      countRecordsGo rest record_types other_types
        (printed ++ ["Unknown node of type: ".data ++ record.tag])

/-- `count_record_types`, starting from fresh counters. -/
def count_record_types (nodes : List Node) :
    Except (List Char) (CounterT × CounterT × List (List Char)) :=
  countRecordsGo nodes [] [] []

/-- Loop body of `count_tags_and_fields` (source lines 169-176).  The method
initializes `self.tags` and `self.fields`, but the inner loop increments
`self.field[k]`; the object has no attribute `field`, so the first attribute
key of any node raises `AttributeError`.  On the paths that do not raise,
the `fields` counter is never incremented. -/
def countTagsGo (nodes : List Node) (tags fields : CounterT) :
    Except (List Char) (CounterT × CounterT) :=
  match nodes with
  | [] => .ok (tags, fields)
  | record :: rest =>
    match record.attrib with
    | [] => countTagsGo rest (counterAdd tags record.tag) fields
    | _ :: _ =>
      .error "AttributeError: HealthDataExtractor object has no attribute field".data

/-- `count_tags_and_fields`, starting from fresh counters. -/
def count_tags_and_fields (nodes : List Node) :
    Except (List Char) (CounterT × CounterT) :=
  countTagsGo nodes [] []

/-- The constructor pipeline after loading (source lines 120-125): shorten
the type names in place, then run both counting passes.  Returns the
normalized nodes and every counter the object ends up holding. -/
def initCounts (nodes : List Node) :
    Except (List Char)
      (List Node × CounterT × CounterT × List (List Char) × CounterT × CounterT) := do
  let nodes2 ← shorten_type_names nodes
  let (record_types, other_types, printed) ← count_record_types nodes2
  let (tags, fields) ← count_tags_and_fields nodes2
  .ok (nodes2, record_types, other_types, printed, tags, fields)

/-! ## Output stage (source lines 178-217) -/

/-- Handles: kind, then (file name, file contents written so far).  The
directory prefix that `os.path.join` adds is path resolution outside the
core and is omitted; the file name itself is modelled exactly. -/
abbrev Handles := List (List Char × (List Char × List Char))

/-- Loop body of `open_for_writing` (source lines 178-191): for each kind,
the file name is `shorten_type_name(kind)` plus `.csv` (note the source
applies `shorten_type_name` to the kind here, a second time), and the header
line is the comma-joined field names of the resolved schema. -/
def openGo (kinds : List (List Char)) (handles : Handles) :
    Except (List Char) Handles :=
  match kinds with
  | [] => .ok handles
  | kind :: rest => do
    let short ← shorten_type_name kind
    let path := short ++ ".csv".data
    let header_type :=
      if kind = "Workout".data ∨ kind = "ActivitySummary".data then kind
      else "Record".data
    match dictGet FIELDS header_type with
    | some flds =>
      openGo rest
        (handles ++ [(kind, (path, List.intercalate [','] (flds.map Prod.fst) ++ ['\n']))])
    | none => .error "KeyError: header type".data

/-- `open_for_writing`: iterate `list(record_types) + list(other_types)`
(Counter iteration order is first-insertion order). -/
def open_for_writing (record_types other_types : CounterT) :
    Except (List Char) Handles :=
  openGo (record_types.map Prod.fst ++ other_types.map Prod.fst) []

/-- The list-comprehension body of `write_record` (source lines 200-201):
format every schema field from the attribute map, in schema order. -/
def formatRow (flds : List (List Char × Char))
    (attributes : List (List Char × List Char)) :
    Except (List Char) (List (List Char)) :=
  match flds with
  | [] => .ok []
  | (field, datatype) :: rest => do
    let v ← format_value (dictGet attributes field) datatype
    let vs ← formatRow rest attributes
    .ok (v :: vs)

/-- Loop body of `write_record` (source lines 193-203): nodes whose tag is a
`FIELDS` key produce one comma-joined line appended to the handle of their
kind (the `type` attribute for `Record`, the tag otherwise). -/
def writeRecordGo (handles : Handles) (nodes : List Node) :
    Except (List Char) Handles :=
  match nodes with
  | [] => .ok handles
  | node :: rest =>
    match dictGet FIELDS node.tag with
    | none => writeRecordGo handles rest
    | some flds => do
      let kind ←
        if node.tag = "Record".data then
          match dictGet node.attrib "type".data with
          | some t => Except.ok t
          | none => Except.error "KeyError: type".data
        else
          Except.ok node.tag
      let values ← formatRow flds node.attrib
      let line := List.intercalate [','] values ++ ['\n']
      match dictGet handles kind with
      | some pc => writeRecordGo (dictSet handles kind (pc.1, pc.2 ++ line)) rest
      | none => Except.error "KeyError: kind not open".data

/-- `write_record`, over all nodes. -/
def write_record (handles : Handles) (nodes : List Node) :
    Except (List Char) Handles :=
  writeRecordGo handles nodes

/-- `extract` (source lines 210-217): opens the sinks, then calls
`self.write_records()`.  The class defines `write_record` but no attribute
named `write_records`, so the call raises `AttributeError` whenever it is
reached. -/
def extract (record_types other_types : CounterT) (_nodes : List Node) :
    Except (List Char) Handles := do
  let _handles ← open_for_writing record_types other_types
  .error "AttributeError: HealthDataExtractor object has no attribute write_records".data

/-- A full run as driven by `HealthStats.main`: construct the extractor
(load counts), then `extract`. -/
def fullRun (nodes : List Node) : Except (List Char) Handles := do
  let (nodes2, record_types, other_types, _printed, _tags, _fields) ← initCounts nodes
  extract record_types other_types nodes2

/-! ## Summary (source lines 219-241) -/

/-- Stable insertion into a list sorted by descending count: the new pair
goes after every pair with a count at least as large, matching the stable
descending sort used by `Counter.most_common`. -/
def insertDesc (p : List Char × Nat) : List (List Char × Nat) → List (List Char × Nat)
  | [] => [p]
  | q :: rest => if p.2 ≤ q.2 then q :: insertDesc p rest else p :: q :: rest

/-- `Counter.most_common()`: entries sorted by descending count, ties kept
in first-insertion order. -/
def most_common (c : CounterT) : List (List Char × Nat) :=
  c.foldl (fun acc p => insertDesc p acc) []

/-- The local helper `append_counter(s, name, counter)` of `__str__` (source
lines 227-230): it rebinds its parameter `s` locally and returns `None`, so
its computed text is visible only inside the helper.  We model the text the
helper builds; every caller discards it, as Python does. -/
def append_counter (s name : List Char) (counter : CounterT) : List Char :=
  (most_common counter).foldl
    (fun acc kc => acc ++ kc.1 ++ ": ".data ++ (Nat.repr kc.2).data ++ ['\n'])
    (s ++ '\n' :: name ++ ['\n'])

/-- `__str__` (source lines 219-241): starts from the empty string, calls
`append_counter` three times, and returns `s`.  Because `append_counter`
only rebinds its own local and its result is discarded, the outer `s` is
still the empty string when it is returned. -/
def healthSummary (tags fields record_types : CounterT) : List Char :=
  let s : List Char := []
  let _ := append_counter s "Tags".data tags
  let _ := append_counter s "Fields".data fields
  let _ := append_counter s "Record Types".data record_types
  s

/-! ## Spec-side definitions

These are written from the wording of the specification, not from the
source; they are compared against the source-derived definitions above. -/

/-- Modelled from the spec: the reversal of the string escaping ("reversing
this escaping reconstructs s exactly").  A backslash followed by any
character decodes to that character; every other character decodes to
itself; a trailing lone backslash is malformed. -/
def unescapeBody : List Char → Option (List Char)
  | [] => some []
  | c :: rest =>
    if c = '\\' then
      match rest with
      | [] => none
      | d :: rest2 => (unescapeBody rest2).map (fun l => d :: l)
    else
      (unescapeBody rest).map (fun l => c :: l)

/-- Modelled from the spec: strip the outer double quotes, then undo the
escaping of the body. -/
def unformat (t : List Char) : Option (List Char) :=
  match t with
  | [] => none
  | c :: rest =>
    if c = '"' ∧ rest.getLast? = some '"' then unescapeBody rest.dropLast
    else none

/-- Modelled from the spec (claim wording for the normalizer): the input is
an `HK` lead, then filler, then the `TypeIdentifier` marker, then the
non-empty rest `r` that the normalizer should return.  Filler and rest are
newline-free and at most one trailing newline is tolerated, which is what
the anchored pattern with `.` accepts. -/
def MatchesTypePattern (x r : List Char) : Prop :=
  ∃ u t, x = hkLit ++ u ++ marker ++ r ++ t ∧ r ≠ [] ∧
    u.all (fun c => c ≠ '\n') = true ∧ r.all (fun c => c ≠ '\n') = true ∧
    (t = [] ∨ t = ['\n'])

/-! ## Concrete example inputs -/

/-- A typical `Record` node before normalization. -/
def stepNode : Node :=
  ⟨"Record".data, [("type".data, "HKQuantityTypeIdentifierStepCount".data)]⟩

/-- The same node after normalization. -/
def shortNode : Node :=
  ⟨"Record".data, [("type".data, "StepCount".data)]⟩

/-- A node with a wholly unrecognized tag and no attributes. -/
def fooNode : Node := ⟨"Foo".data, []⟩

/-- A `Record` node that has no `type` attribute. -/
def badNode : Node := ⟨"Record".data, []⟩

/-! ## Helper lemmas -/

theorem pyReplace_append (a b : List Char) (old : Char) (new : List Char) :
    pyReplace (a ++ b) old new = pyReplace a old new ++ pyReplace b old new := by
  induction a with
  | nil => simp [pyReplace]
  | cons c rest ih => simp [pyReplace, ih]

theorem escapedBody_cons (c : Char) (s : List Char) :
    escapedBody (c :: s) =
      (if c = '\\' then ['\\', '\\'] else if c = '"' then ['\\', '"'] else [c])
        ++ escapedBody s := by
  by_cases hb : c = '\\'
  · subst hb
    simp [escapedBody, pyReplace, pyReplace_append]
  · by_cases hq : c = '"'
    · subst hq
      simp [escapedBody, pyReplace, pyReplace_append]
    · simp [escapedBody, pyReplace, pyReplace_append, hb, hq]

theorem unescapeBody_escapedBody (s : List Char) :
    unescapeBody (escapedBody s) = some s := by
  induction s with
  | nil => rfl
  | cons c rest ih =>
    rw [escapedBody_cons]
    by_cases hb : c = '\\'
    · subst hb
      simp only [if_pos rfl, List.cons_append, List.nil_append]
      rw [unescapeBody.eq_def]
      simp [ih]
    · by_cases hq : c = '"'
      · subst hq
        simp only [if_neg hb, if_pos rfl, List.cons_append, List.nil_append]
        rw [unescapeBody.eq_def]
        simp [ih]
      · simp only [if_neg hb, if_neg hq, List.cons_append, List.nil_append]
        rw [unescapeBody.eq_def]
        simp [hb, ih]

/-- C3 helper: what `format_value` produces for a present string value. -/
theorem format_value_string (v : List Char) :
    format_value (some v) 's' = .ok ('"' :: escapedBody v ++ ['"']) := rfl

/-! ## Claim theorems -/

/-- C3: for every string `s`, `format_value(s, 's')` wraps `s` in double
quotes after doubling backslashes and then escaping double quotes, and
reversing that escaping reconstructs `s` exactly; in particular the input
`He said "hi"\back` formats to `"He said \"hi\"\\back"`. -/
theorem c3_string_escape_roundtrip :
    (∀ s : List Char, ∃ t, format_value (some s) 's' = .ok t ∧ unformat t = some s)
    ∧ format_value (some "He said \"hi\"\\back".data) 's'
        = .ok "\"He said \\\"hi\\\"\\\\back\"".data := by
  constructor
  · intro s
    refine ⟨'"' :: escapedBody s ++ ['"'], format_value_string s, ?_⟩
    show unformat ('"' :: (escapedBody s ++ ['"'])) = some s
    simp [unformat, List.getLast?_concat, List.dropLast_concat, unescapeBody_escapedBody]
  · rfl

/-- C9: `format_value(None, k)` is the empty text for every value kind `k`,
including unknown kinds. -/
theorem c9_format_none_empty (datatype : Char) :
    format_value none datatype = .ok [] := rfl

/-- C7: the textual summary built by the `__str__` model is always the empty
string, never a multi-section text: the helper that was meant to append each
section rebinds a local variable and its result is discarded. -/
theorem c7_summary_empty (tags fields record_types : CounterT) :
    healthSummary tags fields record_types = [] := rfl

/-- C2 helper: `extract` raises unconditionally, because the call target
`write_records` is not an attribute of the class. -/
theorem extract_raises (record_types other_types : CounterT) (nodes : List Node) :
    isErr (extract record_types other_types nodes) = true := by
  cases h : open_for_writing record_types other_types with
  | error e => simp [extract, h, isErr, Except.bind, bind]
  | ok v => simp [extract, h, isErr, Except.bind, bind]

/-- C2: no full extraction run ever completes, so its output never matches
the classification counters: `extract` calls the undefined attribute
`write_records` (the method is named `write_record`), and `open_for_writing`
raises even earlier whenever any kind was discovered. -/
theorem c2_extract_never_completes (nodes : List Node) :
    isErr (fullRun nodes) = true := by
  cases h : initCounts nodes with
  | error e => simp [fullRun, h, isErr, Except.bind, bind]
  | ok v =>
    obtain ⟨nodes2, record_types, other_types, printed, tags, fields⟩ := v
    simp [fullRun, h, Except.bind, bind]
    exact extract_raises record_types other_types nodes2

/-- C1: on an export whose only node is a `Record` of type
`HKQuantityTypeIdentifierStepCount`, normalization rewrites the type to
`StepCount` and classification discovers exactly that kind, but
`open_for_writing` then applies `shorten_type_name` to the already-short
kind name, which does not match `PREFIX_RE`, so it raises instead of
creating `StepCount.csv` with the Record header. -/
theorem c1_open_for_writing_reshortens :
    shorten_type_names [stepNode] = .ok [shortNode]
    ∧ count_record_types [shortNode] = .ok ([("StepCount".data, 1)], [], [])
    ∧ isErr (open_for_writing [("StepCount".data, 1)] []) = true := by
  exact ⟨rfl, rfl, rfl⟩

/-- C5: on an export whose only node carries the unknown tag `Foo`, the
classification pass is indeed non-fatal (it only emits the diagnostic line
and counts nothing for the tag, so the node can never be written), but the
run does not complete successfully (`extract` raises) and the summary text
is empty, so it lists nothing about unknown tags. -/
theorem c5_unknown_tag_outcome :
    count_record_types [fooNode]
      = .ok ([], [], ["Unknown node of type: Foo".data])
    ∧ initCounts [fooNode]
      = .ok ([fooNode], [], [], ["Unknown node of type: Foo".data],
          [("Foo".data, 1)], [])
    ∧ isErr (fullRun [fooNode]) = true
    ∧ healthSummary [("Foo".data, 1)] [] [] = [] := by
  exact ⟨rfl, rfl, rfl, rfl⟩

/-- C6 helper: the tags-and-fields loop raises as soon as any node carries
an attribute key, whatever the counters hold at that point. -/
theorem countTagsGo_raises (nodes : List Node) :
    ∀ tags fields, (∃ n ∈ nodes, n.attrib ≠ []) →
      isErr (countTagsGo nodes tags fields) = true := by
  induction nodes with
  | nil =>
    intro tags fields h
    simp at h
  | cons record rest ih =>
    intro tags fields h
    cases hat : record.attrib with
    | nil =>
      have hrest : ∃ n ∈ rest, n.attrib ≠ [] := by
        obtain ⟨n, hn, hne⟩ := h
        rcases List.mem_cons.mp hn with rfl | hn2
        · exact absurd hat hne
        · exact ⟨n, hn2, hne⟩
      rw [countTagsGo.eq_def]
      simp only [hat]
      exact ih _ _ hrest
    | cons a l =>
      rw [countTagsGo.eq_def]
      simp [hat, isErr]

/-- C6: the attribute-key-frequency counter is never filled in: the loop
body increments the undefined attribute `field` (the initialized counter is
`fields`), so `count_tags_and_fields` raises `AttributeError` on any
document in which some node has at least one attribute key. -/
theorem c6_fields_counter_crash (nodes : List Node)
    (h : ∃ n ∈ nodes, n.attrib ≠ []) :
    isErr (count_tags_and_fields nodes) = true :=
  countTagsGo_raises nodes [] [] h

/-- C6 witness: a single ordinary `Record` node already triggers the raise. -/
theorem c6_fields_counter_crash_witness :
    isErr (count_tags_and_fields [stepNode]) = true :=
  c6_fields_counter_crash [stepNode] (by decide)

/-- C10 helper: a successful normalization pass leaves a `Record` node that
has no `type` attribute untouched and in the output list. -/
theorem shorten_type_names_keeps_bad (nodes : List Node) :
    ∀ nodes2, shorten_type_names nodes = .ok nodes2 →
      ∀ n ∈ nodes, n.tag = "Record".data → dictGet n.attrib "type".data = none →
        n ∈ nodes2 := by
  induction nodes with
  | nil =>
    intro nodes2 h n hn
    simp at hn
  | cons node rest ih =>
    intro nodes2 h n hn htag hty
    cases hstep : shortenNodeStep node with
    | error e =>
      rw [shorten_type_names.eq_def] at h
      simp [hstep, Except.bind, bind] at h
    | ok node2 =>
      cases hrest : shorten_type_names rest with
      | error e =>
        rw [shorten_type_names.eq_def] at h
        simp [hstep, hrest, Except.bind, bind] at h
      | ok rest2 =>
        rw [shorten_type_names.eq_def] at h
        simp [hstep, hrest, Except.bind, bind] at h
        rcases List.mem_cons.mp hn with rfl | hn2
        · have hid : shortenNodeStep n = .ok n := by
            simp [shortenNodeStep, htag, hty, pure, Except.pure]
          rw [hid] at hstep
          injection hstep with hstep
          rw [← h, hstep]
          exact List.mem_cons_self _ _
        · rw [← h]
          exact List.mem_cons_of_mem _ (ih rest2 hrest n hn2 htag hty)

/-- C10 helper: the record-type counting loop raises `KeyError` whenever
the remaining nodes contain a `Record` without a `type` attribute. -/
theorem countRecordsGo_raises (nodes : List Node) :
    ∀ record_types other_types printed,
      (∃ n ∈ nodes, n.tag = "Record".data ∧ dictGet n.attrib "type".data = none) →
      isErr (countRecordsGo nodes record_types other_types printed) = true := by
  induction nodes with
  | nil =>
    intro rt ot printed h
    simp at h
  | cons record rest ih =>
    intro rt ot printed h
    rw [countRecordsGo.eq_def]
    by_cases htag : record.tag = "Record".data
    · cases hty : dictGet record.attrib "type".data with
      | none => simp [htag, hty, isErr]
      | some t =>
        have hrest : ∃ n ∈ rest, n.tag = "Record".data ∧
            dictGet n.attrib "type".data = none := by
          obtain ⟨n, hn, h1, h2⟩ := h
          rcases List.mem_cons.mp hn with rfl | hn2
          · rw [hty] at h2
            simp at h2
          · exact ⟨n, hn2, h1, h2⟩
        simp only [htag, hty, if_true, eq_self_iff_true]
        exact ih _ _ _ hrest
    · have hrest : ∃ n ∈ rest, n.tag = "Record".data ∧
          dictGet n.attrib "type".data = none := by
        obtain ⟨n, hn, h1, h2⟩ := h
        rcases List.mem_cons.mp hn with rfl | hn2
        · exact absurd h1 htag
        · exact ⟨n, hn2, h1, h2⟩
      simp only [htag, if_false, iff_false, eq_self_iff_true]
      split
      · exact ih _ _ _ hrest
      · split
        · exact ih _ _ _ hrest
        · exact ih _ _ _ hrest

/-- C10: an export containing a `Record` node without a `type` attribute
makes the constructor fail: normalization skips the node (it guards on the
presence of `type`), and if normalization itself succeeds, the counting
pass indexes the missing attribute unguarded and raises, so the run aborts
before any output. -/
theorem c10_missing_type_fatal (nodes : List Node)
    (h : ∃ n ∈ nodes, n.tag = "Record".data ∧ dictGet n.attrib "type".data = none) :
    isErr (initCounts nodes) = true
    ∧ ∀ nodes2, shorten_type_names nodes = .ok nodes2 →
        isErr (count_record_types nodes2) = true := by
  have key : ∀ nodes2, shorten_type_names nodes = .ok nodes2 →
      isErr (count_record_types nodes2) = true := by
    intro nodes2 h2
    have hbad : ∃ n ∈ nodes2, n.tag = "Record".data ∧
        dictGet n.attrib "type".data = none := by
      obtain ⟨n, hn, h1, hty⟩ := h
      exact ⟨n, shorten_type_names_keeps_bad nodes nodes2 h2 n hn h1 hty, h1, hty⟩
    exact countRecordsGo_raises nodes2 [] [] [] hbad
  refine ⟨?_, key⟩
  cases hs : shorten_type_names nodes with
  | error e => simp [initCounts, hs, Except.bind, bind, isErr]
  | ok nodes2 =>
    have hcrt := key nodes2 hs
    cases hc : count_record_types nodes2 with
    | error e => simp [initCounts, hs, hc, Except.bind, bind, isErr]
    | ok v =>
      rw [hc] at hcrt
      simp [isErr] at hcrt

/-- C10 witness: one `Record` node with no attributes at all. -/
theorem c10_missing_type_fatal_witness :
    isErr (initCounts [badNode]) = true :=
  (c10_missing_type_fatal [badNode] (by decide)).1

/-- Unfolding lemma for `dictGet` on an empty dict. -/
theorem dictGet_nil {β : Type} (k : List Char) :
    dictGet ([] : List (List Char × β)) k = none := rfl

/-- Unfolding lemma for `dictGet` on a non-empty dict. -/
theorem dictGet_cons {β : Type} (k2 : List Char) (v : β)
    (rest : List (List Char × β)) (k : List Char) :
    dictGet ((k2, v) :: rest) k = if k2 = k then some v else dictGet rest k := rfl

/-- C8 helper: for the three datatype codes that occur in the schemas,
`format_value` always succeeds, and an absent value gives the empty text. -/
theorem format_value_total (v : Option (List Char)) (dt : Char)
    (h : dt = 's' ∨ dt = 'n' ∨ dt = 'd') :
    ∃ w, format_value v dt = .ok w ∧ (v = none → w = []) := by
  cases v with
  | none => exact ⟨[], rfl, fun _ => rfl⟩
  | some x =>
    rcases h with rfl | rfl | rfl
    · exact ⟨'"' :: escapedBody x ++ ['"'], rfl, fun hx => nomatch hx⟩
    · exact ⟨x, rfl, fun hx => nomatch hx⟩
    · exact ⟨x, rfl, fun hx => nomatch hx⟩

/-- C8 helper: the whole row-formatting pass succeeds for any attribute map,
keeps one column per schema field, and puts the empty text in the column of
every schema field the attribute map lacks. -/
theorem formatRow_total (flds : List (List Char × Char))
    (attributes : List (List Char × List Char))
    (h : ∀ fd ∈ flds, fd.2 = 's' ∨ fd.2 = 'n' ∨ fd.2 = 'd') :
    ∃ row, formatRow flds attributes = .ok row ∧ row.length = flds.length ∧
      ∀ i (hi : i < flds.length) (hr : i < row.length),
        dictGet attributes (flds.get ⟨i, hi⟩).1 = none → row.get ⟨i, hr⟩ = [] := by
  induction flds with
  | nil =>
    exact ⟨[], rfl, rfl, fun i hi => absurd hi (Nat.not_lt_zero i)⟩
  | cons fd rest ih =>
    obtain ⟨f, dt⟩ := fd
    obtain ⟨w, hw, hwnone⟩ :=
      format_value_total (dictGet attributes f) dt (h (f, dt) (List.mem_cons_self _ _))
    obtain ⟨row, hrow, hlen, hidx⟩ := ih (fun fd hfd => h fd (List.mem_cons_of_mem _ hfd))
    refine ⟨w :: row, ?_, by simp [hlen], ?_⟩
    · rw [formatRow.eq_def]
      simp [hw, hrow, Except.bind, bind]
    · intro i hi hr hnone
      cases i with
      | zero => exact hwnone hnone
      | succ j =>
        exact hidx j (Nat.lt_of_succ_lt_succ hi) (Nat.lt_of_succ_lt_succ hr) hnone

/-- C8: for every tag with a registered schema and every attribute map, the
formatting pass of `write_record` is total: it produces one value per schema
field in declared order, and a field the attribute map lacks is formatted as
the empty value (the row keeps its column), never as an error. -/
theorem c8_missing_fields_format_empty (tag : List Char)
    (flds : List (List Char × Char)) (attributes : List (List Char × List Char))
    (h : dictGet FIELDS tag = some flds) :
    ∃ row, formatRow flds attributes = .ok row ∧ row.length = flds.length ∧
      ∀ i (hi : i < flds.length) (hr : i < row.length),
        dictGet attributes (flds.get ⟨i, hi⟩).1 = none → row.get ⟨i, hr⟩ = [] := by
  apply formatRow_total
  have hone : flds = RECORD_FIELDS ∨ flds = ACTIVITY_SUMMARY_FIELDS ∨
      flds = WORKOUT_FIELDS := by
    rw [FIELDS, dictGet_cons] at h
    split_ifs at h with h1
    · exact Or.inl (Option.some_injective _ h).symm
    · rw [dictGet_cons] at h
      split_ifs at h with h2
      · exact Or.inr (Or.inl (Option.some_injective _ h).symm)
      · rw [dictGet_cons] at h
        split_ifs at h with h3
        · exact Or.inr (Or.inr (Option.some_injective _ h).symm)
        · rw [dictGet_nil] at h
          exact absurd h (by simp)
  rcases hone with rfl | rfl | rfl
  · decide
  · decide
  · decide

/-- C8 witness: the `Workout` schema formatted from an empty attribute map. -/
theorem c8_missing_fields_format_empty_witness :
    dictGet FIELDS "Workout".data = some WORKOUT_FIELDS ∧
    ∃ row, formatRow WORKOUT_FIELDS [] = .ok row ∧
      row.length = WORKOUT_FIELDS.length ∧
      ∀ i (hi : i < WORKOUT_FIELDS.length) (hr : i < row.length),
        dictGet ([] : List (List Char × List Char))
            (WORKOUT_FIELDS.get ⟨i, hi⟩).1 = none →
          row.get ⟨i, hr⟩ = [] :=
  ⟨by decide,
   c8_missing_fields_format_empty "Workout".data WORKOUT_FIELDS [] (by decide)⟩

/-- C4 helper: the tail pattern accepts exactly a non-empty newline-free
capture followed by nothing or by one final newline. -/
theorem matchRest_eval (r t : List Char) (hrne : r ≠ [])
    (hrnl : r.all (fun c => c ≠ '\n') = true) (ht : t = [] ∨ t = ['\n']) :
    matchRest (r ++ t) = some r := by
  rcases ht with rfl | rfl
  · rw [List.append_nil]
    unfold matchRest
    rw [if_pos ⟨hrne, hrnl⟩]
  · unfold matchRest
    have hno : ¬(r ++ ['\n'] ≠ [] ∧ (r ++ ['\n']).all (fun c => c ≠ '\n') = true) := by
      rintro ⟨h1, h2⟩
      rw [List.all_append] at h2
      simp at h2
    rw [if_neg hno]
    rw [if_pos ⟨List.getLast?_concat r,
      by rw [List.dropLast_concat]; exact hrne,
      by rw [List.dropLast_concat]; exact hrnl⟩]
    rw [List.dropLast_concat]

/-- C4 helper: inversion of the tail-pattern match. -/
theorem matchRest_some (rest r : List Char) (h : matchRest rest = some r) :
    r ≠ [] ∧ r.all (fun c => c ≠ '\n') = true ∧ (rest = r ∨ rest = r ++ ['\n']) := by
  unfold matchRest at h
  split_ifs at h with h1 h2
  · obtain ⟨hne, hall⟩ := h1
    injection h with h
    subst h
    exact ⟨hne, hall, Or.inl rfl⟩
  · obtain ⟨hlast, hne, hall⟩ := h2
    rcases List.eq_nil_or_concat rest with rfl | ⟨l2, a, rfl⟩
    · simp at hlast
    · rw [List.concat_eq_append] at h hlast hne hall ⊢
      rw [List.getLast?_concat] at hlast
      injection hlast with hlast
      rw [List.dropLast_concat] at h hne hall
      injection h with h
      subst h
      subst hlast
      exact ⟨hne, hall, Or.inr rfl⟩

/-- C4 helper: inversion of a successful marker placement: the text splits
as filler, marker, capture and optional final newline. -/
theorem matchAt_some (body : List Char) (i : Nat) (r : List Char)
    (h : matchAt body i = some r) :
    ∃ u t, body = u ++ marker ++ r ++ t ∧ u.all (fun c => c ≠ '\n') = true ∧
      r ≠ [] ∧ r.all (fun c => c ≠ '\n') = true ∧ (t = [] ∨ t = ['\n']) := by
  unfold matchAt at h
  split_ifs at h with hcond
  · obtain ⟨hnl, hmk⟩ := hcond
    obtain ⟨hrne, hrnl, hcases⟩ := matchRest_some _ _ h
    have hsplit : body = body.take i ++ body.drop i := (List.take_append_drop i body).symm
    have hdrop : body.drop i = marker ++ body.drop (i + marker.length) := by
      conv_lhs => rw [← List.take_append_drop marker.length (body.drop i)]
      rw [hmk, List.drop_drop]
    rcases hcases with hre | hre
    · refine ⟨body.take i, [], ?_, hnl, hrne, hrnl, Or.inl rfl⟩
      calc body = body.take i ++ body.drop i := hsplit
        _ = body.take i ++ (marker ++ body.drop (i + marker.length)) := by rw [hdrop]
        _ = body.take i ++ (marker ++ r) := by rw [hre]
        _ = body.take i ++ marker ++ r ++ [] := by simp [List.append_assoc]
    · refine ⟨body.take i, ['\n'], ?_, hnl, hrne, hrnl, Or.inr rfl⟩
      calc body = body.take i ++ body.drop i := hsplit
        _ = body.take i ++ (marker ++ body.drop (i + marker.length)) := by rw [hdrop]
        _ = body.take i ++ (marker ++ (r ++ ['\n'])) := by rw [hre]
        _ = body.take i ++ marker ++ r ++ ['\n'] := by simp [List.append_assoc]

/-- C4 helper: a decomposition of the text yields a successful marker
placement at the filler length. -/
theorem matchAt_of_decomp (u r t body : List Char)
    (hb : body = u ++ marker ++ r ++ t)
    (hu : u.all (fun c => c ≠ '\n') = true) (hrne : r ≠ [])
    (hrnl : r.all (fun c => c ≠ '\n') = true) (ht : t = [] ∨ t = ['\n']) :
    matchAt body u.length = some r := by
  subst hb
  have hassoc : u ++ marker ++ r ++ t = u ++ (marker ++ (r ++ t)) := by
    simp [List.append_assoc]
  have h1 : (u ++ marker ++ r ++ t).take u.length = u := by
    rw [hassoc, List.take_left]
  have h2 : (u ++ marker ++ r ++ t).drop u.length = marker ++ (r ++ t) := by
    rw [hassoc, List.drop_left]
  have h3 : ((u ++ marker ++ r ++ t).drop u.length).take marker.length = marker := by
    rw [h2, List.take_left]
  have h4 : (u ++ marker ++ r ++ t).drop (u.length + marker.length) = r ++ t := by
    have hassoc2 : u ++ marker ++ r ++ t = (u ++ marker) ++ (r ++ t) := by
      simp [List.append_assoc]
    rw [hassoc2, ← List.length_append u marker, List.drop_left]
  unfold matchAt
  rw [if_pos ⟨by rw [h1]; exact hu, h3⟩, h4]
  exact matchRest_eval r t hrne hrnl ht

/-- C4 helper: a result of the greedy search comes from some marker
placement at an offset within range. -/
theorem findFrom_some (body : List Char) (n : Nat) (r : List Char) :
    findFrom body n = some r → ∃ i, i ≤ n ∧ matchAt body i = some r := by
  induction n with
  | zero => exact fun h => ⟨0, Nat.le_refl 0, h⟩
  | succ m ih =>
    intro h
    rw [findFrom] at h
    cases hm : matchAt body (m + 1) with
    | some r2 =>
      rw [hm] at h
      simp only [Option.some.injEq] at h
      subst h
      exact ⟨m + 1, Nat.le_refl _, hm⟩
    | none =>
      rw [hm] at h
      obtain ⟨i, hi, hmi⟩ := ih h
      exact ⟨i, Nat.le_succ_of_le hi, hmi⟩

/-- C4 helper: if any in-range marker placement succeeds, the greedy search
finds some result. -/
theorem findFrom_complete (body : List Char) (n i : Nat) (r : List Char)
    (hi : i ≤ n) (h : matchAt body i = some r) :
    ∃ r2, findFrom body n = some r2 := by
  induction n with
  | zero =>
    obtain rfl : i = 0 := Nat.le_zero.mp hi
    exact ⟨r, by rw [findFrom]; exact h⟩
  | succ m ih =>
    cases hm : matchAt body (m + 1) with
    | some r2 => exact ⟨r2, by rw [findFrom]; simp [hm]⟩
    | none =>
      have hi2 : i ≤ m := by
        have hne : i ≠ m + 1 := by
          intro he
          rw [he, hm] at h
          exact absurd h (by simp)
        omega
      obtain ⟨r2, h2⟩ := ih hi2
      exact ⟨r2, by rw [findFrom]; simp [hm, h2]⟩

/-- C4 helper: returning a value is exactly a successful regex match. -/
theorem shorten_ok_iff (x r : List Char) :
    shorten_type_name x = .ok r ↔ prefixReMatch x = some r := by
  unfold shorten_type_name
  cases hq : prefixReMatch x with
  | some r2 => simp
  | none => simp

/-- C4: `shorten_type_name` succeeds exactly on the inputs matching
`PREFIX_RE` (an `HK` lead, newline-free filler, the `TypeIdentifier`
marker, and a non-empty rest, up to one trailing newline), and on success
it returns exactly the suffix after the marker token; on every other input
it raises instead of returning a value. -/
theorem c4_shorten_defined_iff_pattern (x : List Char) :
    (∀ r, shorten_type_name x = .ok r → MatchesTypePattern x r)
    ∧ ((∃ e, shorten_type_name x = .error e) ↔ ¬∃ r, MatchesTypePattern x r) := by
  have fwd : ∀ r, shorten_type_name x = .ok r → MatchesTypePattern x r := by
    intro r h
    have hp : prefixReMatch x = some r := (shorten_ok_iff x r).mp h
    unfold prefixReMatch at hp
    split_ifs at hp with hk
    · obtain ⟨i, _, hmi⟩ := findFrom_some _ _ _ hp
      obtain ⟨u, t, hb, hu, hrne, hrnl, ht⟩ := matchAt_some _ _ _ hmi
      refine ⟨u, t, ?_, hrne, hu, hrnl, ht⟩
      calc x = x.take 2 ++ x.drop 2 := (List.take_append_drop 2 x).symm
        _ = hkLit ++ (u ++ marker ++ r ++ t) := by rw [hk, hb]
        _ = hkLit ++ u ++ marker ++ r ++ t := by simp [List.append_assoc]
  have bwd : (∃ r, MatchesTypePattern x r) → ∃ r2, shorten_type_name x = .ok r2 := by
    rintro ⟨r, u, t, hb, hrne, hu, hrnl, ht⟩
    have hassoc : hkLit ++ u ++ marker ++ r ++ t
        = hkLit ++ (u ++ marker ++ r ++ t) := by
      simp [List.append_assoc]
    have hk : x.take 2 = hkLit := by
      rw [hb, hassoc, show (2 : Nat) = hkLit.length from rfl]
      exact List.take_left _ _
    have hbody : x.drop 2 = u ++ marker ++ r ++ t := by
      rw [hb, hassoc, show (2 : Nat) = hkLit.length from rfl]
      exact List.drop_left _ _
    have hm : matchAt (x.drop 2) u.length = some r :=
      matchAt_of_decomp u r t _ hbody hu hrne hrnl ht
    have hlen : u.length ≤ (x.drop 2).length := by
      have h3 : x.drop 2 = u ++ (marker ++ r ++ t) := by
        rw [hbody]
        simp [List.append_assoc]
      rw [h3, List.length_append]
      exact Nat.le_add_right _ _
    obtain ⟨r2, h2⟩ := findFrom_complete (x.drop 2) (x.drop 2).length u.length r hlen hm
    refine ⟨r2, (shorten_ok_iff x r2).mpr ?_⟩
    unfold prefixReMatch
    rw [if_pos hk]
    exact h2
  refine ⟨fwd, ?_, ?_⟩
  · rintro ⟨e, he⟩ ⟨r, hr⟩
    obtain ⟨r2, h2⟩ := bwd ⟨r, hr⟩
    rw [he] at h2
    exact absurd h2 (by simp)
  · intro hno
    cases hs : shorten_type_name x with
    | error e => exact ⟨e, rfl⟩
    | ok r => exact absurd ⟨r, fwd r hs⟩ hno

/-- C4 witness: the typical verbose identifier both matches the pattern and
shortens to exactly the suffix after the marker. -/
theorem c4_shorten_defined_iff_pattern_witness :
    shorten_type_name "HKQuantityTypeIdentifierStepCount".data
      = .ok "StepCount".data
    ∧ MatchesTypePattern "HKQuantityTypeIdentifierStepCount".data
        "StepCount".data :=
  ⟨rfl,
   (c4_shorten_defined_iff_pattern "HKQuantityTypeIdentifierStepCount".data).1
     "StepCount".data rfl⟩
